import Mathlib

/-!
Verification of the Playwright self-healing locator subsystem.

This file is a shallow embedding, in Lean 4, of the locator-healing subsystem:
the scoring algorithm (`scoringAlgorithm.ts`), the healing orchestrator
(`healingEngine.ts`), the resolution retry wrapper (`selfHealingWrapper.ts`),
the suggestion store (`suggestionStore.ts`) and the code modifier
(`codeModifier.ts`).

Modelling conventions:
- JavaScript strings are modelled as `List Char` (`Str`).  The JS string
  operations used by the source (`includes`, `replace`, `split`, `join`,
  `trim`, `toLowerCase`, whitespace collapsing) are defined below with the
  exact first-occurrence / all-occurrences semantics of their JS originals.
- JavaScript numbers are modelled as `ℚ`.  Every numeric computation of the
  source (weighted sums, divisions, `Math.min`/`Math.max` clamps) stays within
  the rationals, so no floating-point rounding is lost on the values that
  actually occur.
- Interactions with the live browser document (element visibility queries,
  bounding boxes, the regex engine of the JS runtime, the candidates a DOM
  heuristic finds on the current page) are modelled as explicit oracle
  parameters (`ScoringEnv`, `RegexEnv`, per-strategy candidate functions).
  The pure glue code around those oracles is translated line by line.
- A rejected `Promise` is modelled as `Except.error`; `Promise.all` is
  `promiseAll` below, which fails as soon as one entry fails (the JS original
  rejects with the first settled rejection; for the properties proved here
  only whether it rejects matters, not which of several simultaneous
  rejections wins).
- Fire-and-forget side effects that the source performs and whose failures it
  swallows internally (the best-effort DOM snapshot, the suggestion-store
  write in `logHealingAttempt`, console logging) do not influence any value
  the claims talk about and are not part of the state passed around here.
-/

namespace SelfHealing

/-- JS strings, as sequences of characters. -/
abbrev Str := List Char

/-! ### JS string primitives -/

/-- `hay.includes(needle)`. -/
def jsIncludesL : Str → Str → Bool
  | hay, needle =>
    if needle.isPrefixOf hay then true
    else
      match hay with
      | [] => false
      | _ :: t => jsIncludesL t needle

/-- `s.replace(needle, repl)` with a string pattern: replaces the first
occurrence only; with an empty needle the replacement is inserted at
position 0, as in JS. -/
def listReplaceFirst (needle repl : Str) : Str → Str
  | [] => if needle.isPrefixOf ([] : Str) then repl else []
  | c :: cs =>
    if needle.isPrefixOf (c :: cs) then repl ++ (c :: cs).drop needle.length
    else c :: listReplaceFirst needle repl cs

/-- `s.toLowerCase()` (ASCII range; every string the source compares this way
is ASCII). -/
def jsToLower (s : Str) : Str := s.map Char.toLower

/-- JS `\s` on the ASCII range (the source only ever feeds it source-code
lines and locator strings). -/
def jsIsSpace (c : Char) : Bool :=
  c = ' ' || c = '\t' || c = '\n' || c = '\r' || c = Char.ofNat 11 || c = Char.ofNat 12

/-- Worker for `collapseWs`: `insideRun` records whether the previous
character belonged to the current whitespace run (whose single `' '` has
already been emitted). -/
def collapseWsAux (insideRun : Bool) : Str → Str
  | [] => []
  | c :: cs =>
    if jsIsSpace c then
      if insideRun then collapseWsAux true cs else ' ' :: collapseWsAux true cs
    else c :: collapseWsAux false cs

/-- `s.replace(/\s+/g, ' ')`: every maximal whitespace run becomes one
space. -/
def collapseWs (s : Str) : Str := collapseWsAux false s

/-- `s.trim()`. -/
def jsTrim (s : Str) : Str :=
  ((s.dropWhile jsIsSpace).reverse.dropWhile jsIsSpace).reverse

/-- `s.split(sep)` for a one-character separator: splits at every occurrence
and keeps empty fragments, as JS does. -/
def splitOnChar (sep : Char) : Str → List Str
  | [] => [[]]
  | c :: cs =>
    match splitOnChar sep cs with
    | [] => [[]]
    | g :: gs => if c = sep then [] :: g :: gs else (c :: g) :: gs

/-- `parts.join(sep)` for a one-character separator. -/
def joinWithChar (sep : Char) : List Str → Str
  | [] => []
  | [l] => l
  | l :: l2 :: ls => l ++ sep :: joinWithChar sep (l2 :: ls)

/-- `s.replace(/c/g, r)` for a single character `c`. -/
def jsReplaceAllChar (c r : Char) (s : Str) : Str :=
  s.map (fun x => if x = c then r else x)

/-- Worker for `jsSetDedup`, carrying the set of elements already emitted. -/
def jsSetDedupAux (seen : List Str) : List Str → List Str
  | [] => []
  | x :: xs =>
    if x ∈ seen then jsSetDedupAux seen xs
    else x :: jsSetDedupAux (x :: seen) xs

/-- `[...new Set(l)]`: removes duplicates keeping the first occurrence of
each element. -/
def jsSetDedup (l : List Str) : List Str := jsSetDedupAux [] l

/-! ### Data model (`healingEngine.ts`) -/

/-- `CandidateElement` from `healingEngine.ts`.  The transient
`ElementHandle` is an opaque runtime object; it is modelled by an abstract
identifier that the scoring oracles consume. -/
structure CandidateElement where
  locator : Str
  element : Nat
  reasoning : Str
  strategy : Str
deriving DecidableEq, Repr

/-- `ScoredCandidate`: a `CandidateElement` together with its score
(`{...candidate, score}`). -/
structure ScoredCandidate where
  locator : Str
  element : Nat
  reasoning : Str
  strategy : Str
  score : ℚ
deriving DecidableEq, Repr

/-- The spread `{...candidate, score}` in `scoreCandidates`. -/
def mkScored (c : CandidateElement) (q : ℚ) : ScoredCandidate :=
  ⟨c.locator, c.element, c.reasoning, c.strategy, q⟩

/-- Forgets the score again (used only to state theorems). -/
def toCandidate (sc : ScoredCandidate) : CandidateElement :=
  ⟨sc.locator, sc.element, sc.reasoning, sc.strategy⟩

/-- The `mode` field of `SelfHealingConfig`. -/
inductive Mode where
  | auto
  | assisted
  | suggestionOnly
deriving DecidableEq, Repr

/-- `SelfHealingConfig` after the constructor of `HealingEngine` has merged
in the defaults.  `autoApplyThreshold` stays optional because the object
spread `{...defaults, ...config}` lets a caller-supplied explicit
`undefined` override the default; `excludeTests` regexes are modelled as
predicates on the test name.  The `strategies` name list is represented by
the strategy list passed to `attemptHealing` below; `storageFile`,
`notifyOnHeal` and `learnFromManualSelections` only affect logging and
persistence side effects, not any value the claims mention. -/
structure SelfHealingConfig where
  enabled : Bool
  mode : Mode
  autoApplyThreshold : Option ℚ
  excludeTests : List (Str → Bool)

/-- The failure-reason strings produced by the engine, as a tagged type
carrying the interpolated values of each message template. -/
inductive Reason where
  | selfHealingDisabled
  | testExcluded
  | noCandidatesFound
  | belowThreshold (score : ℚ) (threshold : Option ℚ)
  | suggestionOnlyMode
deriving DecidableEq, Repr

/-- `HealingResult`.  Absent optional fields of the JS object literals are
`none`. -/
structure HealingResult where
  success : Bool
  appliedLocator : Option Str := none
  score : Option ℚ := none
  strategy : Option Str := none
  reason : Option Reason := none
  candidates : Option (List ScoredCandidate) := none
  applied : Option Bool := none
deriving DecidableEq, Repr

/-- `HealingContext` (the fields the modelled code reads; `page`,
`lineNumber`, `screenshot` and `domSnapshot` are only passed through to the
oracles / side effects). -/
structure HealingContext where
  originalLocator : Str
  testName : Option Str := none
  previouslySuccessfulElements : List Nat := []

/-! ### Scoring algorithm (`scoringAlgorithm.ts`) -/

/-- The runtime behaviour `ScoringAlgorithm` depends on:
- `patternTokens locator`: the (lowercased) captures the seven attribute
  regexes of `tokenizeLocator` extract from a locator string;
- `visibility e`: the `(isVisible, isEnabled)` answer of the live document
  for element `e`, `none` when the query throws
  (`assessElementVisibility`'s catch);
- `positionDistance e ref`: the Euclidean distance between the centers of
  the two elements' bounding boxes, `none` when a box is missing or the
  query throws (`calculatePositionSimilarity`'s catch and null check). -/
structure ScoringEnv where
  patternTokens : Str → List Str
  visibility : Nat → Option (Bool × Bool)
  positionDistance : Nat → Nat → Option ℚ

/-- `getStrategyWeight`. -/
def getStrategyWeight (strategy : Str) : ℚ :=
  if strategy = "semantic".data then 40
  else if strategy = "text".data then 25
  else if strategy = "structural".data then 20
  else if strategy = "attribute".data then 15
  else 10

/-- `getStrategyScore`. -/
def getStrategyScore (strategy : Str) : ℚ :=
  if strategy = "semantic".data then 90
  else if strategy = "text".data then 80
  else if strategy = "structural".data then 70
  else if strategy = "attribute".data then 60
  else 50

/-- JS `\w`. -/
def isWordChar (c : Char) : Bool :=
  (c.isAlpha && c.toNat < 128) || c.isDigit || c = '_'

/-- Worker for `wordRuns`: `current` is the reversed `\w` run in
progress. -/
def wordRunsAux (current : Str) : Str → List Str
  | [] => if current.isEmpty then [] else [current.reverse]
  | c :: cs =>
    if isWordChar c then wordRunsAux (c :: current) cs
    else if current.isEmpty then wordRunsAux [] cs
    else current.reverse :: wordRunsAux [] cs

/-- `locator.toLowerCase().match(/\w+/g) || []`: the maximal `\w` runs. -/
def wordRuns (s : Str) : List Str := wordRunsAux [] s

/-- `tokenizeLocator`: regex-extracted attribute values (oracle), then the
lowercased `\w+` words, deduplicated via `new Set`. -/
def tokenizeLocator (env : ScoringEnv) (locator : Str) : List Str :=
  jsSetDedup (env.patternTokens locator ++ wordRuns (jsToLower locator))

/-- `calculateLocatorSimilarity`. -/
def calculateLocatorSimilarity (env : ScoringEnv) (newLocator originalLocator : Str) : ℚ :=
  let newTokens := tokenizeLocator env newLocator
  let originalTokens := tokenizeLocator env originalLocator
  let intersection := newTokens.filter (fun token => token ∈ originalTokens)
  let union := jsSetDedup (newTokens ++ originalTokens)
  if 0 < union.length then ((intersection.length : ℚ) / (union.length : ℚ)) * 100 else 0

/-- `assessElementVisibility`: 70 for visible plus 30 for enabled; 0 when the
document query throws. -/
def assessElementVisibility (env : ScoringEnv) (element : Nat) : ℚ :=
  match env.visibility element with
  | none => 0
  | some (isVisible, isEnabled) =>
    (if isVisible then 70 else 0) + (if isEnabled then 30 else 0)

/-- `calculatePositionSimilarity`: `max(0, (100 - distance) / 100 * 100)`;
0 when a bounding box is missing or the query throws. -/
def calculatePositionSimilarity (env : ScoringEnv) (element reference : Nat) : ℚ :=
  match env.positionDistance element reference with
  | none => 0
  | some distance => max 0 ((100 - distance) / 100 * 100)

/-- `ScoringAlgorithm.scoreCandidate`, accumulating `score` and `weightSum`
exactly as the source does, then normalizing with
`Math.min(100, Math.max(0, score / weightSum * 100))`. -/
def scoreCandidate (env : ScoringEnv) (candidate : CandidateElement)
    (context : HealingContext) : ℚ :=
  let strategyWeight := getStrategyWeight candidate.strategy
  let score1 := getStrategyScore candidate.strategy * strategyWeight
  let weightSum1 := strategyWeight
  let similarityScore := calculateLocatorSimilarity env candidate.locator context.originalLocator
  let score2 := score1 + similarityScore * 30
  let weightSum2 := weightSum1 + 30
  let visibilityScore := assessElementVisibility env candidate.element
  let score3 := score2 + visibilityScore * 20
  let weightSum3 := weightSum2 + 20
  let final :=
    match context.previouslySuccessfulElements with
    | [] => (score3, weightSum3)
    | reference :: _ =>
      (score3 + calculatePositionSimilarity env candidate.element reference * 15, weightSum3 + 15)
  if 0 < final.2 then min 100 (max 0 (final.1 / final.2 * 100)) else 0

/-! ### Healing orchestrator (`healingEngine.ts`) -/

/-- One entry of the engine's `strategies` array: the strategy's `name`
together with its `findCandidates` behaviour against the live document
(an oracle; `Except.error` is a rejected promise). -/
structure NamedStrategy where
  name : Str
  findCandidates : HealingContext → Except Str (List CandidateElement)

/-- `Promise.all`: resolves with all results, rejects as soon as one entry
rejects. -/
def promiseAll {ε α : Type} : List (Except ε α) → Except ε (List α)
  | [] => Except.ok []
  | x :: xs =>
    match x with
    | Except.error e => Except.error e
    | Except.ok a =>
      match promiseAll xs with
      | Except.error e => Except.error e
      | Except.ok rest => Except.ok (a :: rest)

/-- The key `` `${candidate.locator}:${candidate.strategy}` `` of
`deduplicateCandidates`. -/
def dedupKey (c : CandidateElement) : Str :=
  c.locator ++ ':' :: c.strategy

/-- Worker for `deduplicateCandidates`: the `seen` set of keys. -/
def dedupByKey (seen : List Str) : List CandidateElement → List CandidateElement
  | [] => []
  | c :: cs =>
    if dedupKey c ∈ seen then dedupByKey seen cs
    else c :: dedupByKey (dedupKey c :: seen) cs

/-- `HealingEngine.deduplicateCandidates`. -/
def deduplicateCandidates (candidates : List CandidateElement) : List CandidateElement :=
  dedupByKey [] candidates

/-- `HealingEngine.scoreCandidates` over an abstract scorer: a candidate
whose scoring throws is skipped (`catch { continue }`), the rest keep their
order. -/
def scoreCandidates (scorer : CandidateElement → Except Str ℚ) :
    List CandidateElement → List ScoredCandidate
  | [] => []
  | c :: cs =>
    match scorer c with
    | Except.ok q => mkScored c q :: scoreCandidates scorer cs
    | Except.error _ => scoreCandidates scorer cs

/-- The scorer the engine actually installs: `this.scoringAlgorithm
.scoreCandidate`.  Every fallible sub-call of `scoreCandidate` catches its
own errors internally, so with the real algorithm scoring never rejects. -/
def healingScorer (env : ScoringEnv) (context : HealingContext)
    (candidate : CandidateElement) : Except Str ℚ :=
  Except.ok (scoreCandidate env candidate context)

/-- Insertion step of the stable descending sort. -/
def insertByScoreDesc (x : ScoredCandidate) : List ScoredCandidate → List ScoredCandidate
  | [] => [x]
  | y :: ys => if y.score < x.score then x :: y :: ys else y :: insertByScoreDesc x ys

/-- `scoredCandidates.sort((a, b) => b.score - a.score)`.  JS `Array.sort`
is stable, and a stable sort for a total preorder is unique, so this stable
insertion sort computes exactly the JS result: descending scores, ties in
original order. -/
def sortByScoreDesc (l : List ScoredCandidate) : List ScoredCandidate :=
  l.foldl (fun acc x => insertByScoreDesc x acc) []

/-- `this.config.autoApplyThreshold || 90`: JS `||` replaces both an absent
value and an explicit `0` by the default. -/
def effectiveAutoThreshold (threshold : Option ℚ) : ℚ :=
  match threshold with
  | none => 90
  | some v => if v = 0 then 90 else v

/-- `HealingEngine.applyHealing` (its `page`/`snapshot` arguments are unused
by the source). -/
def applyHealing (config : SelfHealingConfig) (candidates : List ScoredCandidate) :
    HealingResult :=
  match candidates with
  | [] =>
    { success := false
      reason := some Reason.noCandidatesFound
      candidates := some [] }
  | best :: rest =>
    match config.mode with
    | Mode.auto =>
      if effectiveAutoThreshold config.autoApplyThreshold ≤ best.score then
        { success := true
          appliedLocator := some best.locator
          score := some best.score
          applied := some true
          candidates := some (best :: rest) }
      else
        { success := false
          reason := some (Reason.belowThreshold best.score config.autoApplyThreshold)
          candidates := some (best :: rest) }
    | Mode.assisted =>
      { success := true
        appliedLocator := some best.locator
        score := some best.score
        applied := some false
        candidates := some (best :: rest) }
    | Mode.suggestionOnly =>
      { success := false
        reason := some Reason.suggestionOnlyMode
        candidates := some (best :: rest) }

/-- The `excludeTests` check of `attemptHealing`: the loop only runs when
`context.testName` is truthy (a non-empty string). -/
def isExcluded (config : SelfHealingConfig) (context : HealingContext) : Bool :=
  match context.testName with
  | some t => !t.isEmpty && config.excludeTests.any (fun pattern => pattern t)
  | none => false

/-- `HealingEngine.attemptHealing`.  The best-effort snapshot never throws
and only feeds the (unused) `snapshot` argument of `applyHealing`; the
suggestion-store write in `logHealingAttempt` swallows its own errors.
Neither affects the returned result, so they are not modelled as state. -/
def attemptHealing (config : SelfHealingConfig) (strategies : List NamedStrategy)
    (scorer : CandidateElement → Except Str ℚ) (context : HealingContext) :
    Except Str HealingResult :=
  if config.enabled = false then
    Except.ok { success := false, reason := some Reason.selfHealingDisabled }
  else if isExcluded config context then
    Except.ok { success := false, reason := some Reason.testExcluded }
  else
    match promiseAll (strategies.map (fun s => s.findCandidates context)) with
    | Except.error e => Except.error e
    | Except.ok candidateGroups =>
      let uniqueCandidates := deduplicateCandidates candidateGroups.flatten
      let scoredCandidates := scoreCandidates scorer uniqueCandidates
      Except.ok (applyHealing config (sortByScoreDesc scoredCandidates))

/-! ### Resolution retry wrapper (`selfHealingWrapper.ts`) -/

/-- A thrown JS value as the wrapper sees it: `error?.message` may be
absent. -/
structure JsError where
  message : Option Str
deriving DecidableEq, Repr

/-- The `selectorErrors` pattern list of `shouldAttemptHealing`. -/
def selectorErrors : List Str :=
  [ "element not found".data
  , "no such element".data
  , "element is not attached".data
  , "timeout".data
  , "selector resolved to multiple elements".data
  , "strict mode violation".data
  , "waiting for selector".data ]

/-- `SelfHealingWrapper.shouldAttemptHealing`: case-insensitive substring
match of the error message against the fixed taxonomy
(`error?.message || ''`). -/
def shouldAttemptHealing (error : JsError) : Bool :=
  let errorMessage := error.message.getD []
  selectorErrors.any (fun pattern =>
    jsIncludesL (jsToLower errorMessage) (jsToLower pattern))

/-- JS truthiness of the optional `healingResult.appliedLocator` string:
absent and empty strings are falsy. -/
def optionStrTruthy : Option Str → Bool
  | some s => !s.isEmpty
  | none => false

/-- `SelfHealingWrapper.wrapSelectorResolution`, with the original
resolution (`action()`), the orchestrator call and the validating
re-resolution (`frameSelectors._performQuery`) as outcome parameters.  The
second component counts how many times the healing orchestrator was
invoked.  `performQuery` returning `Except.ok none` is a `null` element:
the wrapper then throws `'Healed selector validation failed'`, catches it
in the inner `catch`, and falls through to rethrow the original error. -/
def wrapSelectorResolution {R : Type} (enabled : Bool) (actionResult : Except JsError R)
    (healingOutcome : Except JsError HealingResult)
    (performQuery : Str → Except JsError (Option R)) : Except JsError R × Nat :=
  if enabled = false then (actionResult, 0)
  else
    match actionResult with
    | Except.ok resolved => (Except.ok resolved, 0)
    | Except.error originalError =>
      if shouldAttemptHealing originalError = false then (Except.error originalError, 0)
      else
        match healingOutcome with
        | Except.error rejected => (Except.error rejected, 1)
        | Except.ok healingResult =>
          if healingResult.success && optionStrTruthy healingResult.appliedLocator then
            match performQuery (healingResult.appliedLocator.getD []) with
            | Except.ok (some healedElement) => (Except.ok healedElement, 1)
            | Except.ok none => (Except.error originalError, 1)
            | Except.error _ => (Except.error originalError, 1)
          else (Except.error originalError, 1)

/-! ### Suggestion store (`suggestionStore.ts`) -/

/-- The backing file of a `SuggestionStore`, as the `fs` + `JSON.parse`
combination classifies it: absent, present but not parsable as a JSON
array of records (or not readable), or parsed.  Records are abstract: the
store never inspects them on the write path. -/
inductive StoreFile (α : Type) where
  | missing
  | unparsable
  | parsed (records : List α)
deriving DecidableEq, Repr

/-- `SuggestionStore.loadSuggestions`: a missing or unreadable/unparsable
backing file reads as the empty collection. -/
def loadSuggestions {α : Type} : StoreFile α → List α
  | StoreFile.missing => []
  | StoreFile.unparsable => []
  | StoreFile.parsed records => records

/-- The retention cap `suggestions.slice(-100)` applied on every write. -/
def capRecords {α : Type} (l : List α) : List α :=
  if 100 < l.length then l.drop (l.length - 100) else l

/-- `SuggestionStore.storeSuggestion`.  A missing file reads as `[]` and is
then written; if reading or parsing throws, the surrounding `catch`
swallows the error and no write happens, leaving the file as it was. -/
def storeSuggestion {α : Type} (file : StoreFile α) (suggestion : α) : StoreFile α :=
  match file with
  | StoreFile.missing => StoreFile.parsed (capRecords [suggestion])
  | StoreFile.unparsable => StoreFile.unparsable
  | StoreFile.parsed records => StoreFile.parsed (capRecords (records ++ [suggestion]))

/-! ### Code modifier (`codeModifier.ts`) -/

/-- The JS regex engine behind the quote-preserving branch of
`replaceLocatorInLine`: `quotedMatch q orig line` is `match[0]` of
`line.match(new RegExp(q + '[^q]*' + escapeRegex(orig) + '[^q]*' + q))`,
`none` when there is no match. -/
structure RegexEnv where
  quotedMatch : Char → Str → Str → Option Str

/-- The three `quoteStyles` of `codeModifier.ts` (`"`, `'`, backtick). -/
def quoteStyles : List Char := ['"', Char.ofNat 39, Char.ofNat 96]

/-- Line/locator normalization used by `containsLocator`:
`x.replace(/\s+/g, ' ').trim()`. -/
def normalizeWs (s : Str) : Str := jsTrim (collapseWs s)

/-- `CodeModifier.containsLocator`. -/
def containsLocator (line locator : Str) : Bool :=
  let normalizedLine := normalizeWs line
  let normalizedLocator := normalizeWs locator
  if jsIncludesL normalizedLine normalizedLocator then true
  else
    let locatorVariations : List Str :=
      [ '"' :: locator ++ ['"']
      , Char.ofNat 39 :: locator ++ [Char.ofNat 39]
      , Char.ofNat 96 :: locator ++ [Char.ofNat 96]
      , jsReplaceAllChar '"' (Char.ofNat 39) locator
      , jsReplaceAllChar (Char.ofNat 39) '"' locator ]
    locatorVariations.any (fun variation => jsIncludesL normalizedLine variation)

/-- `CodeModifier.replaceLocatorInLine`: direct replacement, then the three
quoted forms, then the quote-preserving regex rewrite, then the blind
fallback `line.replace(originalLocator, healedLocator)` (which changes
nothing when the text does not occur). -/
def replaceLocatorInLine (env : RegexEnv) (line originalLocator healedLocator : Str) : Str :=
  if jsIncludesL line originalLocator then
    listReplaceFirst originalLocator healedLocator line
  else
    match quoteStyles.findSome? (fun quote =>
        let quotedOriginal := quote :: originalLocator ++ [quote]
        if jsIncludesL line quotedOriginal then
          some (listReplaceFirst quotedOriginal (quote :: healedLocator ++ [quote]) line)
        else none) with
    | some replaced => replaced
    | none =>
      match quoteStyles.findSome? (fun quote =>
          (env.quotedMatch quote originalLocator line).map (fun matched =>
            listReplaceFirst matched (quote :: healedLocator ++ [quote]) line)) with
      | some replaced => replaced
      | none => listReplaceFirst originalLocator healedLocator line

/-- `lines[i] = replaceLocatorInLine(lines[i], ...)`. -/
def replaceAt (env : RegexEnv) (lines : List Str) (i : Nat)
    (originalLocator healedLocator : Str) : List Str :=
  lines.set i (replaceLocatorInLine env (lines.getD i []) originalLocator healedLocator)

/-- The `±searchRange` loop of `replaceLocatorInLines`: for each offset,
first the line above (guarded by `lineIndex - offset >= 0`), then the line
below (guarded by `lineIndex + offset < lines.length`). -/
def searchNearby (env : RegexEnv) (lines : List Str) (lineIndex : Nat)
    (originalLocator healedLocator : Str) : List Nat → Option (List Str)
  | [] => none
  | offset :: rest =>
    if offset ≤ lineIndex && containsLocator (lines.getD (lineIndex - offset) []) originalLocator then
      some (replaceAt env lines (lineIndex - offset) originalLocator healedLocator)
    else if lineIndex + offset < lines.length && containsLocator (lines.getD (lineIndex + offset) []) originalLocator then
      some (replaceAt env lines (lineIndex + offset) originalLocator healedLocator)
    else searchNearby env lines lineIndex originalLocator healedLocator rest

/-- `CodeModifier.replaceLocatorInLines`: `null` when the 1-based target
line is out of range or no occurrence is found on the target line or within
the ±3 window. -/
def replaceLocatorInLines (env : RegexEnv) (lines : List Str) (targetLineNumber : Int)
    (originalLocator healedLocator : Str) : Option (List Str) :=
  let lineIndexZ : Int := targetLineNumber - 1
  if lineIndexZ < 0 || (lines.length : Int) ≤ lineIndexZ then none
  else
    let lineIndex := lineIndexZ.toNat
    if containsLocator (lines.getD lineIndex []) originalLocator then
      some (replaceAt env lines lineIndex originalLocator healedLocator)
    else searchNearby env lines lineIndex originalLocator healedLocator [1, 2, 3]

/-- `CodeModificationOptions` (the file path is replaced by the file's
content, passed to `applyHealingToCode` directly). -/
structure CodeModificationOptions where
  lineNumber : Int
  originalLocator : Str
  healedLocator : Str
  createBackup : Option Bool
deriving DecidableEq, Repr

/-- The error cases of `CodeModificationResult.error`, as a tagged type
standing for the two message templates. -/
inductive CodeModError where
  | fileNotFound
  | locatorNotFound
deriving DecidableEq, Repr

/-- `CodeModificationResult` (paths omitted: they echo the request). -/
structure CodeModificationResultE where
  success : Bool
  error : Option CodeModError := none
deriving DecidableEq, Repr

/-- What one `applyHealingToCode` call leaves behind: the result object,
the target file's content after the call, and the backup content written
(if any). -/
structure CodeModOutcome where
  result : CodeModificationResultE
  fileContent : Option Str
  backupWritten : Option Str
deriving DecidableEq, Repr

/-- `content.split('\n')`. -/
def linesOf (content : Str) : List Str := splitOnChar '\n' content

/-- `modifiedLines.join('\n')`. -/
def joinLines (lines : List Str) : Str := joinWithChar '\n' lines

/-- `CodeModifier.applyHealingToCode` on a file state (`none` = the target
file does not exist).  A backup with the full original content is written
unless `createBackup` is explicitly `false` (`options.createBackup !==
false`). -/
def applyHealingToCode (env : RegexEnv) (file : Option Str)
    (options : CodeModificationOptions) : CodeModOutcome :=
  match file with
  | none =>
    { result := { success := false, error := some CodeModError.fileNotFound }
      fileContent := none
      backupWritten := none }
  | some originalContent =>
    let lines := linesOf originalContent
    let backup := if options.createBackup = some false then none else some originalContent
    match replaceLocatorInLines env lines options.lineNumber
        options.originalLocator options.healedLocator with
    | none =>
      { result := { success := false, error := some CodeModError.locatorNotFound }
        fileContent := some originalContent
        backupWritten := backup }
    | some modifiedLines =>
      { result := { success := true }
        fileContent := some (joinLines modifiedLines)
        backupWritten := backup }

/-! ### Concrete fixtures for witnesses and counterexamples -/

/-- A scoring environment in which every document interaction fails: the
regex captures are empty and visibility / bounding-box queries throw. -/
def scoringEnvBare : ScoringEnv :=
  ⟨fun _ => [], fun _ => none, fun _ _ => none⟩

/-- A healing context for the failed locator `#submit`. -/
def contextSubmit : HealingContext :=
  { originalLocator := "#submit".data }

/-- A candidate as the semantic strategy would tag it. -/
def candidateSemantic : CandidateElement :=
  ⟨"role=button".data, 1, "matching role".data, "semantic".data⟩

/-- A candidate as the attribute strategy would tag it. -/
def candidateAttribute : CandidateElement :=
  ⟨"data-testid=submit-btn".data, 2, "matching data-testid".data, "attribute".data⟩

/-- A semantic strategy that finds one candidate. -/
def strategySemantic : NamedStrategy :=
  ⟨"semantic".data, fun _ => Except.ok [candidateSemantic]⟩

/-- An attribute strategy that finds one candidate. -/
def strategyAttribute : NamedStrategy :=
  ⟨"attribute".data, fun _ => Except.ok [candidateAttribute]⟩

/-- A strategy whose `findCandidates` promise rejects. -/
def strategyRejecting : NamedStrategy :=
  ⟨"semantic".data, fun _ => Except.error "Execution context was destroyed".data⟩

/-- Enabled auto-mode configuration with threshold 95. -/
def configAuto95 : SelfHealingConfig :=
  ⟨true, Mode.auto, some 95, []⟩

/-- Enabled suggestion-only configuration with the default threshold. -/
def configSuggestion : SelfHealingConfig :=
  ⟨true, Mode.suggestionOnly, some 90, []⟩

/-- A regex-engine oracle that never matches (the quote-preserving branch
is not reached by the concrete runs below). -/
def regexEnvNone : RegexEnv :=
  ⟨fun _ _ _ => none⟩

/-- Whether a promise resolved. -/
def exceptIsOk {ε α : Type} : Except ε α → Bool
  | Except.ok _ => true
  | Except.error _ => false

/-- The configured priority of a strategy name: its position in the
configured strategy-name list (list length when absent). -/
def strategyPriority (names : List Str) (s : Str) : Nat :=
  match names with
  | [] => 0
  | n :: ns => if n = s then 0 else strategyPriority ns s + 1

/-- The ranking key the specification states for the result list, relative
to the configured strategy-name order: score descending, ties by configured
strategy priority (position in the configured strategy list) ascending.
The specification's "unique-match flag" has no counterpart in the source
data model (`ScoredCandidate` carries no such flag), so that component of
the key is vacuous. -/
def rankedBefore (names : List Str) (a b : ScoredCandidate) : Prop :=
  b.score < a.score ∨
    (a.score = b.score ∧ strategyPriority names a.strategy ≤ strategyPriority names b.strategy)

/-- A thrown error whose message matches the selector-failure taxonomy
(`'timeout'`, case-insensitively). -/
def errorTimeout : JsError :=
  ⟨some "Timeout 30000ms exceeded".data⟩

/-- A thrown error whose message does not match the selector-failure
taxonomy. -/
def errorViewport : JsError :=
  ⟨some "Element is outside of the viewport".data⟩

/-- A healing result that reports failure. -/
def healingFailed : HealingResult :=
  { success := false, reason := some Reason.noCandidatesFound }

/-- A validating re-resolution that finds no element (`null`). -/
def queryNull : Str → Except JsError (Option Nat) :=
  fun _ => Except.ok none

/-- A three-line test file containing the locator `foo` on line 2. -/
def contentABFooB : Str := "a\nfoo\nb".data

/-- A modification request whose healed locator contains a newline. -/
def optionsNewlineHealed : CodeModificationOptions :=
  ⟨2, "foo".data, "x\ny".data, some false⟩

/-- A modification request with a newline-free healed locator. -/
def optionsQux : CodeModificationOptions :=
  ⟨2, "foo".data, "qux".data, some false⟩

/-- A two-line test file that nowhere contains the locator `zz`. -/
def contentTwoLines : Str := "ab\ncd".data

/-- A modification request for a locator absent from the whole file. -/
def optionsAbsent : CodeModificationOptions :=
  ⟨1, "zz".data, "y".data, some false⟩

/-! ## Lemmas about the scoring algorithm -/

theorem getStrategyWeight_ge_ten (s : Str) : (10 : ℚ) ≤ getStrategyWeight s := by
  unfold getStrategyWeight
  split_ifs <;> norm_num

theorem getStrategyWeight_le_forty (s : Str) : getStrategyWeight s ≤ 40 := by
  unfold getStrategyWeight
  split_ifs <;> norm_num

/-- The strategy base term alone is at least `50 * 10 = 500`. -/
theorem strategyTerm_ge (s : Str) :
    (500 : ℚ) ≤ getStrategyScore s * getStrategyWeight s := by
  unfold getStrategyScore getStrategyWeight
  split_ifs <;> norm_num

theorem calculateLocatorSimilarity_nonneg (env : ScoringEnv) (a b : Str) :
    0 ≤ calculateLocatorSimilarity env a b := by
  simp only [calculateLocatorSimilarity]
  split_ifs
  · positivity
  · exact le_refl 0

theorem assessElementVisibility_nonneg (env : ScoringEnv) (e : Nat) :
    0 ≤ assessElementVisibility env e := by
  unfold assessElementVisibility
  split
  · exact le_refl 0
  · split_ifs <;> norm_num

theorem calculatePositionSimilarity_nonneg (env : ScoringEnv) (e r : Nat) :
    0 ≤ calculatePositionSimilarity env e r := by
  unfold calculatePositionSimilarity
  split
  · exact le_refl 0
  · exact le_max_left 0 _

/-- `Math.min(100, Math.max(0, score / weightSum * 100)) = 100` as soon as
the raw weighted sum is at least the weight sum. -/
theorem clampFormula (score w : ℚ) (hw : 0 < w) (hle : w ≤ score) :
    min 100 (max 0 (score / w * 100)) = 100 := by
  have h100 : (100 : ℚ) ≤ score / w * 100 := by
    rw [div_mul_eq_mul_div, le_div_iff₀ hw]
    nlinarith
  rw [max_eq_right (le_trans (by norm_num) h100), min_eq_left h100]

/-- `scoreCandidate` always returns exactly 100: the strategy term alone
(at least 500) exceeds every possible weight sum (at most 105), so the
normalized value is at least 100 before clamping and the `Math.min(100, ·)`
branch always wins. -/
theorem scoreCandidate_const (env : ScoringEnv) (c : CandidateElement)
    (ctx : HealingContext) : scoreCandidate env c ctx = 100 := by
  have hbase := strategyTerm_ge c.strategy
  have hw10 := getStrategyWeight_ge_ten c.strategy
  have hw40 := getStrategyWeight_le_forty c.strategy
  have hsim := calculateLocatorSimilarity_nonneg env c.locator ctx.originalLocator
  have hvis := assessElementVisibility_nonneg env c.element
  cases h : ctx.previouslySuccessfulElements with
  | nil =>
    simp only [scoreCandidate, h]
    rw [if_pos (by linarith)]
    exact clampFormula _ _ (by linarith) (by nlinarith)
  | cons r rest =>
    have hpos := calculatePositionSimilarity_nonneg env c.element r
    simp only [scoreCandidate, h]
    rw [if_pos (by linarith)]
    exact clampFormula _ _ (by linarith) (by nlinarith)

/-! ## Lemmas about the orchestrator -/

/-- Every branch of `applyHealing` returns the full candidate list. -/
theorem applyHealing_candidates (config : SelfHealingConfig)
    (candidates : List ScoredCandidate) :
    (applyHealing config candidates).candidates = some candidates := by
  cases candidates with
  | nil => rfl
  | cons best rest =>
    cases h : config.mode <;> simp only [applyHealing, h] <;> split_ifs <;> rfl

/-- With the engine's real scorer, scoring never throws and every candidate
receives the constant score 100. -/
theorem scoreCandidates_healingScorer (env : ScoringEnv) (ctx : HealingContext)
    (l : List CandidateElement) :
    scoreCandidates (healingScorer env ctx) l = l.map (fun c => mkScored c 100) := by
  induction l with
  | nil => rfl
  | cons c cs ih =>
    simp only [scoreCandidates, healingScorer, scoreCandidate_const, List.map_cons, ih]

theorem score_of_mem_scored (sc : ScoredCandidate) (l : List CandidateElement)
    (h : sc ∈ l.map (fun c => mkScored c 100)) : sc.score = 100 := by
  rcases List.mem_map.mp h with ⟨c, _, rfl⟩
  rfl

theorem insertByScoreDesc_append (x : ScoredCandidate) (l : List ScoredCandidate)
    (h : ∀ y ∈ l, ¬ y.score < x.score) : insertByScoreDesc x l = l ++ [x] := by
  induction l with
  | nil => rfl
  | cons y ys ih =>
    have hy : ¬ y.score < x.score := h y (List.mem_cons_self y ys)
    simp only [insertByScoreDesc, if_neg hy, List.cons_append, List.cons.injEq, true_and]
    exact ih (fun z hz => h z (List.mem_cons_of_mem y hz))

theorem foldl_insert_const :
    ∀ l acc : List ScoredCandidate, (∀ y ∈ l, y.score = 100) →
      (∀ y ∈ acc, y.score = 100) →
      List.foldl (fun a x => insertByScoreDesc x a) acc l = acc ++ l := by
  intro l
  induction l with
  | nil => intro acc _ _; simp
  | cons x xs ih =>
    intro acc hl hacc
    have hx : x.score = 100 := hl x (List.mem_cons_self x xs)
    have hins : insertByScoreDesc x acc = acc ++ [x] := by
      refine insertByScoreDesc_append x acc (fun y hy => ?_)
      rw [hacc y hy, hx]
      exact lt_irrefl 100
    simp only [List.foldl_cons, hins]
    rw [ih (acc ++ [x]) (fun y hy => hl y (List.mem_cons_of_mem x hy))
      (fun y hy => by
        rcases List.mem_append.mp hy with h1 | h1
        · exact hacc y h1
        · rw [List.mem_singleton.mp h1, hx])]
    simp

/-- The stable sort leaves a constant-score list unchanged: the comparator
`b.score - a.score` never reorders equal scores. -/
theorem sortByScoreDesc_const (l : List ScoredCandidate)
    (h : ∀ y ∈ l, y.score = 100) : sortByScoreDesc l = l := by
  have := foldl_insert_const l [] h (fun y hy => absurd hy (List.not_mem_nil y))
  simpa [sortByScoreDesc] using this

theorem promiseAll_length {ε α : Type} (l : List (Except ε α)) (out : List α)
    (h : promiseAll l = Except.ok out) : out.length = l.length := by
  induction l generalizing out with
  | nil =>
    simp only [promiseAll] at h
    cases h
    rfl
  | cons x xs ih =>
    cases x with
    | error e => simp [promiseAll] at h
    | ok a =>
      cases hrec : promiseAll xs with
      | error e => rw [promiseAll, hrec] at h; cases h
      | ok rest =>
        rw [promiseAll, hrec] at h
        cases h
        simp [ih rest hrec]

theorem dedupByKey_sublist (seen : List Str) (cs : List CandidateElement) :
    (dedupByKey seen cs).Sublist cs := by
  induction cs generalizing seen with
  | nil => simp [dedupByKey]
  | cons c rest ih =>
    simp only [dedupByKey]
    split_ifs
    · exact (ih seen).cons c
    · exact (ih (dedupKey c :: seen)).cons₂ c

/-- Survivors of `dedupByKey` have pairwise distinct keys, and none of the
keys in `seen`. -/
theorem dedupByKey_keys (cs : List CandidateElement) :
    ∀ seen : List Str,
      (dedupByKey seen cs).Pairwise (fun a b => dedupKey a ≠ dedupKey b)
      ∧ ∀ x ∈ dedupByKey seen cs, dedupKey x ∉ seen := by
  induction cs with
  | nil => intro seen; simp [dedupByKey]
  | cons c rest ih =>
    intro seen
    simp only [dedupByKey]
    split_ifs with hc
    · exact ⟨(ih seen).1, (ih seen).2⟩
    · refine ⟨List.Pairwise.cons ?_ (ih (dedupKey c :: seen)).1, ?_⟩
      · intro y hy
        have := (ih (dedupKey c :: seen)).2 y hy
        intro hcontra
        exact this (by rw [← hcontra]; exact List.mem_cons_self _ _)
      · intro x hx
        rcases List.mem_cons.mp hx with rfl | hx'
        · exact hc
        · intro hmem
          exact (ih (dedupKey c :: seen)).2 x hx' (List.mem_cons_of_mem _ hmem)

/-- The first candidate carrying a given key survives deduplication,
provided the key was not seen before. -/
theorem find_first_key_kept (cs : List CandidateElement) :
    ∀ (seen : List Str) (k : Str) (x : CandidateElement),
      cs.find? (fun y => dedupKey y == k) = some x → k ∉ seen →
      x ∈ dedupByKey seen cs := by
  induction cs with
  | nil => intro seen k x h _; simp [List.find?] at h
  | cons c rest ih =>
    intro seen k x h hk
    by_cases hc : dedupKey c = k
    · have hx : c = x := by
        rw [List.find?] at h
        rw [show (dedupKey c == k) = true from beq_iff_eq.mpr hc] at h
        exact Option.some.inj h
      subst hx
      simp only [dedupByKey]
      rw [if_neg (by rw [hc]; exact hk)]
      exact List.mem_cons_self _ _
    · have hrest : rest.find? (fun y => dedupKey y == k) = some x := by
        rw [List.find?] at h
        rwa [show (dedupKey c == k) = false from beq_eq_false_iff_ne.mpr hc] at h
      simp only [dedupByKey]
      split_ifs with hseen
      · exact ih seen k x hrest hk
      · refine List.mem_cons_of_mem c (ih (dedupKey c :: seen) k x hrest ?_)
        intro hmem
        rcases List.mem_cons.mp hmem with heq | hmem'
        · exact hc heq.symm
        · exact hk hmem'

/-- A key `locator ++ ':' ++ strategy` determines the pair when the
strategy part contains no `':'`. -/
theorem colonSplit (s1 s2 : Str) (h1 : ':' ∉ s1) (h2 : ':' ∉ s2) :
    ∀ l1 l2 : Str, l1 ++ ':' :: s1 = l2 ++ ':' :: s2 → l1 = l2 ∧ s1 = s2 := by
  intro l1
  induction l1 with
  | nil =>
    intro l2 h
    cases l2 with
    | nil => simpa using h
    | cons c l2t =>
      exfalso
      simp only [List.nil_append, List.cons_append, List.cons.injEq] at h
      exact h1 (h.2 ▸ List.mem_append_right l2t (List.mem_cons_self ':' s2))
  | cons c l1t ih =>
    intro l2 h
    cases l2 with
    | nil =>
      exfalso
      simp only [List.nil_append, List.cons_append, List.cons.injEq] at h
      exact h2 (h.2.symm ▸ List.mem_append_right l1t (List.mem_cons_self ':' s1))
    | cons d l2t =>
      simp only [List.cons_append, List.cons.injEq] at h
      obtain ⟨rfl, htail⟩ := h
      obtain ⟨rfl, hs⟩ := ih l2t htail
      exact ⟨rfl, hs⟩

/-- Unfolding `attemptHealing` on the enabled, non-excluded path once the
strategy fan-out has resolved. -/
theorem attemptHealing_run (config : SelfHealingConfig) (strategies : List NamedStrategy)
    (scorer : CandidateElement → Except Str ℚ) (context : HealingContext)
    (groups : List (List CandidateElement))
    (hen : config.enabled = true) (hex : isExcluded config context = false)
    (hgroups : promiseAll (strategies.map (fun s => s.findCandidates context)) =
      Except.ok groups) :
    attemptHealing config strategies scorer context =
      Except.ok (applyHealing config
        (sortByScoreDesc (scoreCandidates scorer (deduplicateCandidates groups.flatten)))) := by
  unfold attemptHealing
  rw [if_neg (by simp [hen]), if_neg (by simp [hex]), hgroups]

/-- With the real scorer the sort is the identity: every score is the
constant 100. -/
theorem sortedScored (env : ScoringEnv) (context : HealingContext)
    (l : List CandidateElement) :
    sortByScoreDesc (scoreCandidates (healingScorer env context) l) =
      l.map (fun c => mkScored c 100) := by
  rw [scoreCandidates_healingScorer]
  exact sortByScoreDesc_const _ (fun y hy => score_of_mem_scored y l hy)

/-- At the only score that ever reaches the comparison (100), the coded
threshold `autoApplyThreshold || 90` and the configured threshold
(defaulted to 90 when unspecified) agree: JS `||` rewrites a configured `0`
to 90, but both 0 and 90 are below 100. -/
theorem effectiveThreshold_le100_iff (t : Option ℚ) :
    (effectiveAutoThreshold t ≤ 100) ↔ (t.getD 90 ≤ 100) := by
  cases t with
  | none => simp [effectiveAutoThreshold]
  | some v =>
    by_cases hv : v = 0
    · subst hv
      simp only [effectiveAutoThreshold, if_pos rfl, Option.getD_some]
      norm_num
    · simp [effectiveAutoThreshold, hv]

/-- The two auto-mode branches of `applyHealing`, written out. -/
theorem applyHealing_auto_pos (config : SelfHealingConfig) (best : ScoredCandidate)
    (rest : List ScoredCandidate) (hmode : config.mode = Mode.auto)
    (h : effectiveAutoThreshold config.autoApplyThreshold ≤ best.score) :
    applyHealing config (best :: rest) =
      { success := true, appliedLocator := some best.locator, score := some best.score,
        applied := some true, candidates := some (best :: rest) } := by
  simp [applyHealing, hmode, h]

theorem applyHealing_auto_neg (config : SelfHealingConfig) (best : ScoredCandidate)
    (rest : List ScoredCandidate) (hmode : config.mode = Mode.auto)
    (h : ¬ effectiveAutoThreshold config.autoApplyThreshold ≤ best.score) :
    applyHealing config (best :: rest) =
      { success := false,
        reason := some (Reason.belowThreshold best.score config.autoApplyThreshold),
        candidates := some (best :: rest) } := by
  simp [applyHealing, hmode, h]

/-- An unsuccessful `applyHealing` result always carries an explicit
reason. -/
theorem applyHealing_reason (config : SelfHealingConfig)
    (candidates : List ScoredCandidate)
    (h : (applyHealing config candidates).success = false) :
    ∃ reason, (applyHealing config candidates).reason = some reason := by
  cases candidates with
  | nil => exact ⟨Reason.noCandidatesFound, rfl⟩
  | cons best rest =>
    cases hm : config.mode with
    | auto =>
      simp only [applyHealing, hm] at h ⊢
      split_ifs at h ⊢ with hthr
      exact ⟨_, rfl⟩
    | assisted => simp only [applyHealing, hm] at h; cases h
    | suggestionOnly => exact ⟨Reason.suggestionOnlyMode, by simp [applyHealing, hm]⟩

/-- Every scored candidate in the output of `scoreCandidates` was scored
successfully with exactly that score. -/
theorem scoreCandidates_sound (scorer : CandidateElement → Except Str ℚ) :
    ∀ l : List CandidateElement, ∀ sc ∈ scoreCandidates scorer l,
      scorer (toCandidate sc) = Except.ok sc.score := by
  intro l
  induction l with
  | nil => intro sc h; simp [scoreCandidates] at h
  | cons c cs ih =>
    intro sc h
    simp only [scoreCandidates] at h
    cases hc : scorer c with
    | ok q =>
      rw [hc] at h
      rcases List.mem_cons.mp h with rfl | h'
      · exact hc
      · exact ih sc h'
    | error e =>
      rw [hc] at h
      exact ih sc h

/-- A successfully scorable candidate is never dropped by
`scoreCandidates`. -/
theorem scoreCandidates_complete (scorer : CandidateElement → Except Str ℚ) :
    ∀ l : List CandidateElement, ∀ c ∈ l, ∀ q : ℚ, scorer c = Except.ok q →
      mkScored c q ∈ scoreCandidates scorer l := by
  intro l
  induction l with
  | nil => intro c h; simp at h
  | cons c0 cs ih =>
    intro c hc q hq
    rcases List.mem_cons.mp hc with rfl | h'
    · simp only [scoreCandidates, hq]
      exact List.mem_cons_self _ _
    · simp only [scoreCandidates]
      cases hc0 : scorer c0 with
      | ok q0 => exact List.mem_cons_of_mem _ (ih c h' q hq)
      | error e => exact ih c h' q hq

theorem find?_congr {α : Type} (p q : α → Bool) :
    ∀ l : List α, (∀ a ∈ l, p a = q a) → l.find? p = l.find? q := by
  intro l
  induction l with
  | nil => intro _; rfl
  | cons x xs ih =>
    intro h
    rw [List.find?, List.find?, h x (List.mem_cons_self x xs),
      ih (fun a ha => h a (List.mem_cons_of_mem x ha))]

theorem find?_some_of_mem {α : Type} (p : α → Bool) :
    ∀ l : List α, ∀ a ∈ l, p a = true → ∃ x, l.find? p = some x := by
  intro l
  induction l with
  | nil => intro a ha; simp at ha
  | cons y ys ih =>
    intro a ha hp
    cases hy : p y with
    | true => exact ⟨y, by rw [List.find?, hy]⟩
    | false =>
      rcases List.mem_cons.mp ha with rfl | ha'
      · rw [hp] at hy; cases hy
      · obtain ⟨x, hx⟩ := ih a ha' hp
        exact ⟨x, by rw [List.find?, hy, hx]⟩

/-- With colon-free strategy names, the dedup key determines the
(locator, strategy) pair. -/
theorem dedupKey_eq_iff (y c : CandidateElement)
    (hy : ':' ∉ y.strategy) (hc : ':' ∉ c.strategy) :
    dedupKey y = dedupKey c ↔ (y.locator = c.locator ∧ y.strategy = c.strategy) := by
  constructor
  · intro h
    exact colonSplit y.strategy c.strategy hy hc y.locator c.locator h
  · intro ⟨h1, h2⟩
    unfold dedupKey
    rw [h1, h2]

/-! ## Claim theorems -/

/-- C2: for every candidate, every context and every document behaviour,
`ScoringAlgorithm.scoreCandidate` returns exactly 100.  The weighted sum is
divided by the weight sum and multiplied by 100 again before clamping, and
the strategy base term alone (base score ≥ 50 times strategy weight ≥ 10,
i.e. at least 500) already exceeds the largest possible weight sum (105),
so the normalized value is at least 100 and the `Math.min(100, ·)` branch
is always taken: ranking, the auto-apply threshold comparison and the
top-score determinism are all decided by a constant score. -/
theorem spec_C2_score_always_100 (env : ScoringEnv) (candidate : CandidateElement)
    (context : HealingContext) : scoreCandidate env candidate context = 100 :=
  scoreCandidate_const env candidate context

/-- C7: in suggestion-only mode the mode policy returns `success = false`
and never sets `applied`, for every candidate list (whatever the scores);
the scored candidates are still returned in the result. -/
theorem spec_C7_suggestion_only_never_applies (config : SelfHealingConfig)
    (candidates : List ScoredCandidate) (hmode : config.mode = Mode.suggestionOnly) :
    (applyHealing config candidates).success = false
    ∧ (applyHealing config candidates).applied = none
    ∧ (applyHealing config candidates).candidates = some candidates := by
  cases candidates with
  | nil => exact ⟨rfl, rfl, rfl⟩
  | cons best rest => simp [applyHealing, hmode]

/-- Witness for C7 at a concrete configuration and candidate list. -/
theorem spec_C7_witness :
    (applyHealing configSuggestion [mkScored candidateSemantic 100]).success = false
    ∧ (applyHealing configSuggestion [mkScored candidateSemantic 100]).applied = none
    ∧ (applyHealing configSuggestion [mkScored candidateSemantic 100]).candidates =
        some [mkScored candidateSemantic 100] :=
  spec_C7_suggestion_only_never_applies configSuggestion [mkScored candidateSemantic 100] rfl

/-- C1: in auto mode, for every orchestrator invocation that yields at
least one scored candidate, the result has `success = true`,
`applied = true` and `appliedLocator` equal to the top candidate's locator
iff the top candidate's score is at least the configured
`autoApplyThreshold` (defaulted to 90 when unspecified); otherwise
`success = false` with the below-threshold reason; in both cases the full
scored candidate list is returned.  The two readings of the threshold —
the configured value and the coded `autoApplyThreshold || 90`, which
differ at a configured 0 — agree on every invocation because every scored
candidate's score is the constant 100. -/
theorem spec_C1_auto_mode_policy (config : SelfHealingConfig)
    (strategies : List NamedStrategy) (env : ScoringEnv) (context : HealingContext)
    (groups : List (List CandidateElement))
    (hmode : config.mode = Mode.auto)
    (hen : config.enabled = true)
    (hex : isExcluded config context = false)
    (hgroups : promiseAll (strategies.map (fun s => s.findCandidates context)) =
      Except.ok groups)
    (hsome : deduplicateCandidates groups.flatten ≠ []) :
    ∃ (r : HealingResult) (top : ScoredCandidate) (rest : List ScoredCandidate),
      attemptHealing config strategies (healingScorer env context) context = Except.ok r
      ∧ top :: rest =
          sortByScoreDesc (scoreCandidates (healingScorer env context)
            (deduplicateCandidates groups.flatten))
      ∧ r.candidates = some (top :: rest)
      ∧ ((r.success = true ∧ r.applied = some true ∧ r.appliedLocator = some top.locator)
          ↔ config.autoApplyThreshold.getD 90 ≤ top.score)
      ∧ (¬ config.autoApplyThreshold.getD 90 ≤ top.score →
          r.success = false
          ∧ r.reason = some (Reason.belowThreshold top.score config.autoApplyThreshold)) := by
  obtain ⟨c, cs, hcons⟩ := List.exists_cons_of_ne_nil hsome
  have hrun := attemptHealing_run config strategies (healingScorer env context)
    context groups hen hex hgroups
  rw [sortedScored, hcons] at hrun
  refine ⟨_, mkScored c 100, cs.map (fun c => mkScored c 100), hrun, ?_, ?_, ?_, ?_⟩
  · rw [sortedScored, hcons]; rfl
  · rw [applyHealing_candidates]; rfl
  · rw [List.map_cons]
    by_cases hthr : effectiveAutoThreshold config.autoApplyThreshold ≤ 100
    · have hspec : config.autoApplyThreshold.getD 90 ≤ 100 :=
        (effectiveThreshold_le100_iff config.autoApplyThreshold).mp hthr
      rw [applyHealing_auto_pos config _ _ hmode hthr]
      exact iff_of_true ⟨rfl, rfl, rfl⟩ hspec
    · have hspec : ¬ config.autoApplyThreshold.getD 90 ≤ 100 :=
        fun h => hthr ((effectiveThreshold_le100_iff config.autoApplyThreshold).mpr h)
      rw [applyHealing_auto_neg config _ _ hmode hthr]
      refine iff_of_false (fun h => ?_) hspec
      cases h.1
  · intro hbelow
    rw [List.map_cons]
    have hthr : ¬ effectiveAutoThreshold config.autoApplyThreshold ≤ 100 :=
      fun h => hbelow ((effectiveThreshold_le100_iff config.autoApplyThreshold).mp h)
    rw [applyHealing_auto_neg config _ _ hmode hthr]
    exact ⟨rfl, rfl⟩

/-- Witness for C1: a concrete auto-mode run with two strategies, one
candidate each. -/
theorem spec_C1_witness :
    ∃ (r : HealingResult) (top : ScoredCandidate) (rest : List ScoredCandidate),
      attemptHealing configAuto95 [strategySemantic, strategyAttribute]
        (healingScorer scoringEnvBare contextSubmit) contextSubmit = Except.ok r
      ∧ top :: rest =
          sortByScoreDesc (scoreCandidates (healingScorer scoringEnvBare contextSubmit)
            (deduplicateCandidates [[candidateSemantic], [candidateAttribute]].flatten))
      ∧ r.candidates = some (top :: rest)
      ∧ ((r.success = true ∧ r.applied = some true ∧ r.appliedLocator = some top.locator)
          ↔ configAuto95.autoApplyThreshold.getD 90 ≤ top.score)
      ∧ (¬ configAuto95.autoApplyThreshold.getD 90 ≤ top.score →
          r.success = false
          ∧ r.reason = some (Reason.belowThreshold top.score configAuto95.autoApplyThreshold)) :=
  spec_C1_auto_mode_policy configAuto95 [strategySemantic, strategyAttribute]
    scoringEnvBare contextSubmit [[candidateSemantic], [candidateAttribute]]
    rfl rfl rfl rfl (by decide)

/-- C4 (amended): `attemptHealing` returns a `HealingResult` — with an
explicit reason whenever unsuccessful — for every context in which each
enabled strategy's `findCandidates` resolves (which is the case for all
built-in strategies, whose bodies catch their own errors); within such a
run a candidate whose scoring throws is skipped and every other candidate
is scored and included.  The original claim additionally asserted that a
strategy whose `findCandidates` rejects is skipped; it is not: the
strategies are awaited with `Promise.all`, whose rejection makes
`attemptHealing` itself reject (see the counterexample). -/
theorem spec_C4_amended_no_throw (config : SelfHealingConfig)
    (strategies : List NamedStrategy) (scorer : CandidateElement → Except Str ℚ)
    (context : HealingContext) (groups : List (List CandidateElement))
    (hgroups : promiseAll (strategies.map (fun s => s.findCandidates context)) =
      Except.ok groups) :
    ∃ r : HealingResult,
      attemptHealing config strategies scorer context = Except.ok r
      ∧ (r.success = false → ∃ reason, r.reason = some reason)
      ∧ (config.enabled = true → isExcluded config context = false →
          r.candidates = some (sortByScoreDesc
            (scoreCandidates scorer (deduplicateCandidates groups.flatten))))
      ∧ (∀ sc ∈ scoreCandidates scorer (deduplicateCandidates groups.flatten),
          scorer (toCandidate sc) = Except.ok sc.score)
      ∧ (∀ c ∈ deduplicateCandidates groups.flatten, ∀ q : ℚ,
          scorer c = Except.ok q →
          mkScored c q ∈ scoreCandidates scorer (deduplicateCandidates groups.flatten)) := by
  by_cases hen : config.enabled = true
  · by_cases hex : isExcluded config context = true
    · refine ⟨{ success := false, reason := some Reason.testExcluded }, ?_, ?_, ?_, ?_, ?_⟩
      · unfold attemptHealing
        rw [if_neg (by simp [hen]), if_pos hex]
      · exact fun _ => ⟨Reason.testExcluded, rfl⟩
      · intro _ hex2
        rw [hex2] at hex
        cases hex
      · exact scoreCandidates_sound scorer _
      · exact scoreCandidates_complete scorer _
    · have hex2 : isExcluded config context = false := by
        cases h : isExcluded config context
        · rfl
        · exact absurd h hex
      refine ⟨_, attemptHealing_run config strategies scorer context groups hen hex2 hgroups,
        ?_, ?_, ?_, ?_⟩
      · exact applyHealing_reason config _
      · intro _ _
        rw [applyHealing_candidates]
      · exact scoreCandidates_sound scorer _
      · exact scoreCandidates_complete scorer _
  · have hen2 : config.enabled = false := by
      cases h : config.enabled
      · rfl
      · exact absurd h hen
    refine ⟨{ success := false, reason := some Reason.selfHealingDisabled }, ?_, ?_, ?_, ?_, ?_⟩
    · unfold attemptHealing
      rw [if_pos hen2]
    · exact fun _ => ⟨Reason.selfHealingDisabled, rfl⟩
    · intro h
      exact absurd h hen
    · exact scoreCandidates_sound scorer _
    · exact scoreCandidates_complete scorer _

/-- Witness for C4 (amended) at a concrete resolving run. -/
theorem spec_C4_witness :
    ∃ r : HealingResult,
      attemptHealing configAuto95 [strategySemantic]
        (healingScorer scoringEnvBare contextSubmit) contextSubmit = Except.ok r
      ∧ (r.success = false → ∃ reason, r.reason = some reason)
      ∧ (configAuto95.enabled = true → isExcluded configAuto95 contextSubmit = false →
          r.candidates = some (sortByScoreDesc
            (scoreCandidates (healingScorer scoringEnvBare contextSubmit)
              (deduplicateCandidates [[candidateSemantic]].flatten))))
      ∧ (∀ sc ∈ scoreCandidates (healingScorer scoringEnvBare contextSubmit)
            (deduplicateCandidates [[candidateSemantic]].flatten),
          healingScorer scoringEnvBare contextSubmit (toCandidate sc) = Except.ok sc.score)
      ∧ (∀ c ∈ deduplicateCandidates [[candidateSemantic]].flatten, ∀ q : ℚ,
          healingScorer scoringEnvBare contextSubmit c = Except.ok q →
          mkScored c q ∈ scoreCandidates (healingScorer scoringEnvBare contextSubmit)
            (deduplicateCandidates [[candidateSemantic]].flatten)) :=
  spec_C4_amended_no_throw configAuto95 [strategySemantic]
    (healingScorer scoringEnvBare contextSubmit) contextSubmit [[candidateSemantic]] rfl

/-- Counterexample for C4 as stated: with an enabled, non-excluded
configuration and a single strategy whose `findCandidates` rejects,
`attemptHealing` does not return a `HealingResult` — the `Promise.all`
rejection propagates and the returned promise rejects. -/
theorem spec_C4_counterexample :
    exceptIsOk (attemptHealing configAuto95 [strategyRejecting]
      (healingScorer scoringEnvBare contextSubmit) contextSubmit) = false := rfl

/-- C6: after deduplication no two surviving candidates share the same
(locator, strategy) pair, and for every pair occurring in the input its
first occurrence is kept.  The dedup key is the string
`locator + ':' + strategy`; the hypothesis that strategy names contain no
`':'` (true of the four built-in producers `semantic`, `text`,
`structural`, `attribute`) makes the key injective on pairs. -/
theorem spec_C6_dedup_unique_pairs (cs : List CandidateElement)
    (hcolon : ∀ c ∈ cs, ':' ∉ c.strategy) :
    (deduplicateCandidates cs).Pairwise
      (fun a b => ¬ (a.locator = b.locator ∧ a.strategy = b.strategy))
    ∧ ∀ c ∈ cs, ∃ x,
        cs.find? (fun y => y.locator == c.locator && y.strategy == c.strategy) = some x
        ∧ x ∈ deduplicateCandidates cs := by
  constructor
  · refine ((dedupByKey_keys cs []).1).imp ?_
    intro a b hne hpair
    refine hne ?_
    unfold dedupKey
    rw [hpair.1, hpair.2]
  · intro c hc
    have hcong : cs.find? (fun y => y.locator == c.locator && y.strategy == c.strategy)
        = cs.find? (fun y => dedupKey y == dedupKey c) := by
      apply find?_congr
      intro a ha
      have hiff : (a.locator == c.locator && a.strategy == c.strategy) = true
          ↔ (dedupKey a == dedupKey c) = true := by
        simp only [Bool.and_eq_true, beq_iff_eq]
        exact (dedupKey_eq_iff a c (hcolon a ha) (hcolon c hc)).symm
      cases h1 : (a.locator == c.locator && a.strategy == c.strategy) with
      | true => exact (hiff.mp h1).symm
      | false =>
        cases h2 : (dedupKey a == dedupKey c) with
        | true => rw [hiff.mpr h2] at h1; cases h1
        | false => rfl
    obtain ⟨x, hfind⟩ := find?_some_of_mem
      (fun y => y.locator == c.locator && y.strategy == c.strategy) cs c hc (by simp)
    refine ⟨x, hfind, ?_⟩
    rw [hcong] at hfind
    exact find_first_key_kept cs [] (dedupKey c) x hfind (List.not_mem_nil _)

/-- Witness for C6: a list with a duplicated pair. -/
theorem spec_C6_witness :
    (deduplicateCandidates [candidateSemantic, candidateSemantic, candidateAttribute]).Pairwise
      (fun a b => ¬ (a.locator = b.locator ∧ a.strategy = b.strategy))
    ∧ ∀ c ∈ [candidateSemantic, candidateSemantic, candidateAttribute], ∃ x,
        [candidateSemantic, candidateSemantic, candidateAttribute].find?
          (fun y => y.locator == c.locator && y.strategy == c.strategy) = some x
        ∧ x ∈ deduplicateCandidates [candidateSemantic, candidateSemantic, candidateAttribute] :=
  spec_C6_dedup_unique_pairs [candidateSemantic, candidateSemantic, candidateAttribute]
    (by decide)

/-- C5: the retry wrapper rethrows unchanged — and never invokes the
orchestrator — every original error whose message does not match the
selector-failure taxonomy; for a selector-class failure it invokes the
orchestrator at most once, and rethrows the original error whenever the
healing result is unusable (unsuccessful or without a truthy applied
locator) or the validating re-resolution fails (null element or a thrown
error). -/
theorem spec_C5_wrapper_error_classification {R : Type} (e : JsError)
    (healingOutcome : Except JsError HealingResult)
    (performQuery : Str → Except JsError (Option R)) :
    (shouldAttemptHealing e = false →
      wrapSelectorResolution true (Except.error e) healingOutcome performQuery =
        (Except.error e, 0))
    ∧ (wrapSelectorResolution true (Except.error e) healingOutcome performQuery).2 ≤ 1
    ∧ (∀ hr, healingOutcome = Except.ok hr →
        ((hr.success = false ∨ optionStrTruthy hr.appliedLocator = false) →
          (wrapSelectorResolution true (Except.error e) healingOutcome performQuery).1 =
            Except.error e)
        ∧ (∀ loc, hr.appliedLocator = some loc →
            (performQuery loc = Except.ok none ∨ ∃ ve, performQuery loc = Except.error ve) →
            (wrapSelectorResolution true (Except.error e) healingOutcome performQuery).1 =
              Except.error e)) := by
  refine ⟨?_, ?_, ?_⟩
  · intro h
    simp [wrapSelectorResolution, h]
  · cases hsh : shouldAttemptHealing e with
    | false => simp [wrapSelectorResolution, hsh]
    | true =>
      cases healingOutcome with
      | error he => simp [wrapSelectorResolution, hsh]
      | ok hr =>
        by_cases hcond : (hr.success && optionStrTruthy hr.appliedLocator) = true
        · cases hq : performQuery (hr.appliedLocator.getD []) with
          | ok o => cases o <;> simp [wrapSelectorResolution, hsh, hcond, hq]
          | error ve => simp [wrapSelectorResolution, hsh, hcond, hq]
        · simp [wrapSelectorResolution, hsh, hcond]
  · intro hr hok
    subst hok
    refine ⟨?_, ?_⟩
    · intro hfail
      cases hsh : shouldAttemptHealing e with
      | false => simp [wrapSelectorResolution, hsh]
      | true =>
        have hcond : (hr.success && optionStrTruthy hr.appliedLocator) = false := by
          rcases hfail with h | h
          · simp [h]
          · simp [h]
        simp [wrapSelectorResolution, hsh, hcond]
    · intro loc hloc hqfail
      cases hsh : shouldAttemptHealing e with
      | false => simp [wrapSelectorResolution, hsh]
      | true =>
        by_cases hcond : (hr.success && optionStrTruthy hr.appliedLocator) = true
        · have hget : hr.appliedLocator.getD [] = loc := by rw [hloc]; rfl
          rcases hqfail with hq | ⟨ve, hq⟩
          · simp [wrapSelectorResolution, hsh, hcond, hget, hq]
          · simp [wrapSelectorResolution, hsh, hcond, hget, hq]
        · have hcond2 : (hr.success && optionStrTruthy hr.appliedLocator) = false := by
            cases hb : (hr.success && optionStrTruthy hr.appliedLocator)
            · rfl
            · exact absurd hb hcond
          simp [wrapSelectorResolution, hsh, hcond2]

/-- Witness for C5: a non-selector error is passed through with no healing
attempt; a timeout error with a failed healing result rethrows the
original. -/
theorem spec_C5_witness :
    wrapSelectorResolution true (Except.error errorViewport)
      (Except.ok healingFailed) queryNull = (Except.error errorViewport, 0)
    ∧ (wrapSelectorResolution true (Except.error errorTimeout)
        (Except.ok healingFailed) queryNull).1 = Except.error errorTimeout :=
  ⟨(spec_C5_wrapper_error_classification errorViewport (Except.ok healingFailed)
      queryNull).1 (by decide),
   ((spec_C5_wrapper_error_classification errorTimeout (Except.ok healingFailed)
      queryNull).2.2 healingFailed rfl).1 (Or.inl rfl)⟩

/-- C10 (amended): a missing backing file is treated as the empty
collection; on a parsable prior state the persisted collection after
`storeSuggestion` is exactly the previous records plus the new one with
the oldest dropped beyond the cap of 100 — so it has at most 100 records,
ends with the new record, and is a suffix of (previous ++ [new]).  On an
unreadable or unparsable backing file, however, the surrounding catch
skips the write entirely: the store is left unchanged (and reads as
empty), so the new record is not appended (see the counterexample). -/
theorem spec_C10_amended_store_retention (α : Type) (file : StoreFile α) (s : α) :
    (loadSuggestions (storeSuggestion file s)).length ≤ 100
    ∧ (file ≠ StoreFile.unparsable →
        loadSuggestions (storeSuggestion file s) =
          (loadSuggestions file ++ [s]).drop ((loadSuggestions file).length + 1 - 100)
        ∧ (loadSuggestions (storeSuggestion file s)).getLast? = some s
        ∧ List.IsSuffix (loadSuggestions (storeSuggestion file s))
            (loadSuggestions file ++ [s]))
    ∧ (file = StoreFile.unparsable → storeSuggestion file s = file) := by
  cases file with
  | missing =>
    have hcap : capRecords [s] = [s] := by
      unfold capRecords
      rw [if_neg (by simp)]
    refine ⟨?_, ?_, ?_⟩
    · simp [storeSuggestion, loadSuggestions, hcap]
    · intro _
      refine ⟨?_, ?_, ?_⟩
      · simp [storeSuggestion, loadSuggestions, hcap]
      · simp [storeSuggestion, loadSuggestions, hcap]
      · simp [storeSuggestion, loadSuggestions, hcap]
    · intro h
      cases h
  | unparsable =>
    refine ⟨by simp [storeSuggestion, loadSuggestions], ?_, fun _ => rfl⟩
    intro h
    exact absurd rfl h
  | parsed records =>
    have hlen2 : (records ++ [s]).length = records.length + 1 := by simp
    have hdrop : capRecords (records ++ [s]) =
        (records ++ [s]).drop (records.length + 1 - 100) := by
      unfold capRecords
      split_ifs with h
      · rw [hlen2]
      · have h0 : records.length + 1 - 100 = 0 := by
          rw [hlen2] at h
          omega
        rw [h0, List.drop_zero]
    have hk : records.length + 1 - 100 ≤ records.length := by omega
    refine ⟨?_, ?_, ?_⟩
    · simp only [storeSuggestion, loadSuggestions, hdrop, List.length_drop, hlen2]
      omega
    · intro _
      refine ⟨?_, ?_, ?_⟩
      · simp [storeSuggestion, loadSuggestions, hdrop]
      · simp only [storeSuggestion, loadSuggestions, hdrop]
        rw [List.drop_append_of_le_length hk, List.getLast?_concat]
      · simp only [storeSuggestion, loadSuggestions, hdrop]
        exact List.drop_suffix _ _
    · intro h
      cases h

/-- Witness for C10 (amended) at a concrete parsable store. -/
theorem spec_C10_witness :
    loadSuggestions (storeSuggestion (StoreFile.parsed [0, 1] : StoreFile Nat) 2) =
      (loadSuggestions (StoreFile.parsed [0, 1] : StoreFile Nat) ++ [2]).drop
        ((loadSuggestions (StoreFile.parsed [0, 1] : StoreFile Nat)).length + 1 - 100)
    ∧ (loadSuggestions (storeSuggestion (StoreFile.parsed [0, 1] : StoreFile Nat) 2)).getLast?
        = some 2
    ∧ List.IsSuffix
        (loadSuggestions (storeSuggestion (StoreFile.parsed [0, 1] : StoreFile Nat) 2))
        (loadSuggestions (StoreFile.parsed [0, 1] : StoreFile Nat) ++ [2]) :=
  (spec_C10_amended_store_retention Nat (StoreFile.parsed [0, 1]) 2).2.1 (by simp)

/-- Counterexample for C10 as stated: on an unparsable backing file the
new record is not appended — `storeSuggestion` performs no write and the
persisted collection still reads as empty. -/
theorem spec_C10_counterexample :
    ¬ (loadSuggestions (storeSuggestion (StoreFile.unparsable : StoreFile Nat) 7)).getLast?
        = some 7 := by
  decide

/-- In a duplicate-free name list, the priority of the i-th name is i. -/
theorem strategyPriority_getD_of_nodup :
    ∀ names : List Str, names.Nodup → ∀ i, i < names.length →
      strategyPriority names (names.getD i []) = i := by
  intro names
  induction names with
  | nil => intro _ i hi; simp at hi
  | cons n ns ih =>
    intro hnd i hi
    obtain ⟨hn, hnd2⟩ := List.nodup_cons.mp hnd
    cases i with
    | zero => simp [strategyPriority]
    | succ j =>
      have hj : j < ns.length := by simpa using hi
      have hm : ns.getD j [] ∈ ns := by
        rw [List.getD_eq_getElem ns [] hj]
        exact List.getElem_mem hj
      have hne : n ≠ ns.getD j [] := fun h => hn (h ▸ hm)
      have hstep : (n :: ns).getD (j + 1) [] = ns.getD j [] := rfl
      rw [hstep]
      simp only [strategyPriority, if_neg hne]
      rw [ih hnd2 j hj]

/-- Candidates produced by the fan-out, flattened in strategy order, are
ordered by the position of their producing strategy in the configured
list, provided each group is tagged with its strategy's name and the
configured names are duplicate-free. -/
theorem flatten_pairwise_ranked (names : List Str) (groups : List (List CandidateElement))
    (hlen : groups.length = names.length)
    (htag : ∀ i, i < groups.length → ∀ c ∈ groups.getD i [], c.strategy = names.getD i [])
    (hnodup : names.Nodup) :
    groups.flatten.Pairwise
      (fun a b => strategyPriority names a.strategy ≤ strategyPriority names b.strategy) := by
  rw [List.pairwise_flatten]
  constructor
  · intro g hg
    obtain ⟨i, hi, hgi⟩ := List.mem_iff_getElem.mp hg
    refine List.pairwise_of_forall_mem_list ?_
    intro a ha b hb
    have hga : a ∈ groups.getD i [] := by
      rw [List.getD_eq_getElem groups [] hi, hgi]; exact ha
    have hgb : b ∈ groups.getD i [] := by
      rw [List.getD_eq_getElem groups [] hi, hgi]; exact hb
    rw [htag i hi a hga, htag i hi b hgb]
  · rw [List.pairwise_iff_getElem]
    intro i j hi hj hij x hx y hy
    have hxi : x ∈ groups.getD i [] := by
      rw [List.getD_eq_getElem groups [] hi]; exact hx
    have hyj : y ∈ groups.getD j [] := by
      rw [List.getD_eq_getElem groups [] hj]; exact hy
    rw [htag i hi x hxi, htag j hj y hyj,
      strategyPriority_getD_of_nodup names hnodup i (by omega),
      strategyPriority_getD_of_nodup names hnodup j (by omega)]
    omega

/-- C3: the scored candidate list of every orchestrator result satisfies
the stated ranking key — score descending, ties by configured strategy
priority ascending (there is no unique-match flag in the source data
model, so that component of the key is vacuous; see `rankedBefore`).  The
comparator itself only sorts by score, but it is stable, every score is
the constant 100, and candidate production order is the configured
strategy order, so the ordering holds.  Hypotheses: each strategy's
candidates carry that strategy's name (as every built-in producer does),
and the configured names are duplicate-free (the configuration's
enabled-strategy set). -/
theorem spec_C3_result_ranked (config : SelfHealingConfig)
    (strategies : List NamedStrategy) (env : ScoringEnv) (context : HealingContext)
    (groups : List (List CandidateElement))
    (hen : config.enabled = true)
    (hex : isExcluded config context = false)
    (hgroups : promiseAll (strategies.map (fun s => s.findCandidates context)) =
      Except.ok groups)
    (htag : ∀ i, i < groups.length → ∀ c ∈ groups.getD i [],
      c.strategy = (strategies.map NamedStrategy.name).getD i [])
    (hnodup : (strategies.map NamedStrategy.name).Nodup) :
    ∃ (r : HealingResult) (l : List ScoredCandidate),
      attemptHealing config strategies (healingScorer env context) context = Except.ok r
      ∧ r.candidates = some l
      ∧ l.Pairwise (rankedBefore (strategies.map NamedStrategy.name)) := by
  have hrun := attemptHealing_run config strategies (healingScorer env context)
    context groups hen hex hgroups
  rw [sortedScored] at hrun
  have hlen : groups.length = (strategies.map NamedStrategy.name).length := by
    have h1 := promiseAll_length _ groups hgroups
    rw [h1, List.length_map, List.length_map]
  have hflat := flatten_pairwise_ranked (strategies.map NamedStrategy.name) groups
    hlen htag hnodup
  have hded := List.Pairwise.sublist (dedupByKey_sublist [] groups.flatten) hflat
  refine ⟨_, _, hrun, applyHealing_candidates config _, ?_⟩
  rw [List.pairwise_map]
  refine hded.imp ?_
  intro a b hle
  exact Or.inr ⟨rfl, hle⟩

/-- Witness for C3: two strategies, one candidate each, equal scores. -/
theorem spec_C3_witness :
    ∃ (r : HealingResult) (l : List ScoredCandidate),
      attemptHealing configSuggestion [strategySemantic, strategyAttribute]
        (healingScorer scoringEnvBare contextSubmit) contextSubmit = Except.ok r
      ∧ r.candidates = some l
      ∧ l.Pairwise (rankedBefore
          ([strategySemantic, strategyAttribute].map NamedStrategy.name)) :=
  spec_C3_result_ranked configSuggestion [strategySemantic, strategyAttribute]
    scoringEnvBare contextSubmit [[candidateSemantic], [candidateAttribute]]
    rfl rfl rfl (by decide) (by decide)

/-! ## Lemmas about the code modifier -/

theorem splitOnChar_ne_nil (sep : Char) : ∀ s : Str, splitOnChar sep s ≠ [] := by
  intro s
  induction s with
  | nil => simp [splitOnChar]
  | cons c cs ih =>
    simp only [splitOnChar]
    cases h : splitOnChar sep cs with
    | nil => simp
    | cons g gs => split_ifs <;> simp

theorem not_mem_of_mem_splitOnChar (sep : Char) :
    ∀ s : Str, ∀ l ∈ splitOnChar sep s, sep ∉ l := by
  intro s
  induction s with
  | nil =>
    intro l hl
    simp only [splitOnChar, List.mem_singleton] at hl
    simp [hl]
  | cons c cs ih =>
    intro l hl
    cases h : splitOnChar sep cs with
    | nil => exact absurd h (splitOnChar_ne_nil sep cs)
    | cons g gs =>
      simp only [splitOnChar, h] at hl
      split_ifs at hl with hc
      · rcases List.mem_cons.mp hl with rfl | hl2
        · simp
        · exact ih l (h ▸ hl2)
      · rcases List.mem_cons.mp hl with rfl | hl2
        · intro hmem
          rcases List.mem_cons.mp hmem with rfl | hmem2
          · exact hc rfl
          · exact ih g (h ▸ List.mem_cons_self g gs) hmem2
        · exact ih l (h ▸ List.mem_cons_of_mem g hl2)

theorem splitOnChar_of_not_mem (sep : Char) :
    ∀ x : Str, sep ∉ x → splitOnChar sep x = [x] := by
  intro x
  induction x with
  | nil => intro _; rfl
  | cons c cs ih =>
    intro h
    have hc : c ≠ sep := fun hcs => h (hcs ▸ List.mem_cons_self c cs)
    have hcs : sep ∉ cs := fun hm => h (List.mem_cons_of_mem c hm)
    simp only [splitOnChar, ih hcs, if_neg hc]

theorem splitOnChar_append (sep : Char) :
    ∀ x r : Str, sep ∉ x →
      splitOnChar sep (x ++ sep :: r) = x :: splitOnChar sep r := by
  intro x
  induction x with
  | nil =>
    intro r _
    simp only [List.nil_append, splitOnChar]
    cases h : splitOnChar sep r with
    | nil => exact absurd h (splitOnChar_ne_nil sep r)
    | cons g gs => simp
  | cons c cs ih =>
    intro r h
    have hc : c ≠ sep := fun hcs => h (hcs ▸ List.mem_cons_self c cs)
    have hcs : sep ∉ cs := fun hm => h (List.mem_cons_of_mem c hm)
    simp only [List.cons_append, splitOnChar, List.append_eq, ih r hcs, if_neg hc]

theorem splitOnChar_joinWithChar (sep : Char) :
    ∀ ls : List Str, ls ≠ [] → (∀ l ∈ ls, sep ∉ l) →
      splitOnChar sep (joinWithChar sep ls) = ls := by
  intro ls
  induction ls with
  | nil => intro h _; exact absurd rfl h
  | cons x tl ih =>
    intro _ hmem
    cases tl with
    | nil =>
      simp only [joinWithChar]
      exact splitOnChar_of_not_mem sep x (hmem x (List.mem_cons_self x []))
    | cons y tl2 =>
      simp only [joinWithChar]
      rw [splitOnChar_append sep x _ (hmem x (List.mem_cons_self x (y :: tl2))),
        ih (by simp) (fun l hl => hmem l (List.mem_cons_of_mem x hl))]

theorem mem_listReplaceFirst (needle repl : Str) :
    ∀ s : Str, ∀ a ∈ listReplaceFirst needle repl s, a ∈ s ∨ a ∈ repl := by
  intro s
  induction s with
  | nil =>
    intro a ha
    simp only [listReplaceFirst] at ha
    split_ifs at ha
    · exact Or.inr ha
    · simp at ha
  | cons c cs ih =>
    intro a ha
    simp only [listReplaceFirst] at ha
    split_ifs at ha
    · rcases List.mem_append.mp ha with h | h
      · exact Or.inr h
      · exact Or.inl (List.mem_of_mem_drop h)
    · rcases List.mem_cons.mp ha with rfl | h
      · exact Or.inl (List.mem_cons_self a cs)
      · rcases ih a h with h2 | h2
        · exact Or.inl (List.mem_cons_of_mem c h2)
        · exact Or.inr h2

/-- Every character of the rewritten line comes from the original line,
the healed locator, or a quote character — whatever the regex oracle
matched. -/
theorem mem_replaceLocatorInLine (env : RegexEnv) (line originalLocator healedLocator : Str)
    (a : Char) (ha : a ∈ replaceLocatorInLine env line originalLocator healedLocator) :
    a ∈ line ∨ a ∈ healedLocator ∨ a ∈ quoteStyles := by
  have hq : ∀ quote ∈ quoteStyles, ∀ b ∈ (quote :: healedLocator ++ [quote] : Str),
      b ∈ healedLocator ∨ b ∈ quoteStyles := by
    intro quote hquote b hb
    rcases List.mem_cons.mp hb with rfl | hb2
    · exact Or.inr hquote
    · rcases List.mem_append.mp hb2 with h | h
      · exact Or.inl h
      · rw [List.mem_singleton.mp h]
        exact Or.inr hquote
  simp only [replaceLocatorInLine] at ha
  split_ifs at ha with hdirect
  · rcases mem_listReplaceFirst _ _ line a ha with h | h
    · exact Or.inl h
    · exact Or.inr (Or.inl h)
  · revert ha
    cases hfs : quoteStyles.findSome? (fun quote =>
        if jsIncludesL line (quote :: originalLocator ++ [quote]) then
          some (listReplaceFirst (quote :: originalLocator ++ [quote])
            (quote :: healedLocator ++ [quote]) line)
        else none) with
    | some replaced =>
      intro ha
      obtain ⟨quote, hquote, hf⟩ := List.exists_of_findSome?_eq_some hfs
      split_ifs at hf
      have hrep : replaced = listReplaceFirst (quote :: originalLocator ++ [quote])
          (quote :: healedLocator ++ [quote]) line := (Option.some.inj hf).symm
      rw [hrep] at ha
      rcases mem_listReplaceFirst _ _ line a ha with h | h
      · exact Or.inl h
      · exact Or.inr (hq quote hquote a h)
    | none =>
      cases hfs2 : quoteStyles.findSome? (fun quote =>
          (env.quotedMatch quote originalLocator line).map (fun matched =>
            listReplaceFirst matched (quote :: healedLocator ++ [quote]) line)) with
      | some replaced =>
        intro ha
        obtain ⟨quote, hquote, hf⟩ := List.exists_of_findSome?_eq_some hfs2
        obtain ⟨matched, _, hrep⟩ := Option.map_eq_some'.mp hf
        rw [← hrep] at ha
        rcases mem_listReplaceFirst _ _ line a ha with h | h
        · exact Or.inl h
        · exact Or.inr (hq quote hquote a h)
      | none =>
        intro ha
        rcases mem_listReplaceFirst _ _ line a ha with h | h
        · exact Or.inl h
        · exact Or.inr (Or.inl h)

theorem searchNearby_some (env : RegexEnv) (lines : List Str) (lineIndex : Nat)
    (originalLocator healedLocator : Str) (hlen : lineIndex < lines.length) :
    ∀ (offs : List Nat) (out : List Str),
      searchNearby env lines lineIndex originalLocator healedLocator offs = some out →
      ∃ k, k < lines.length ∧ out = replaceAt env lines k originalLocator healedLocator := by
  intro offs
  induction offs with
  | nil => intro out h; simp [searchNearby] at h
  | cons o rest ih =>
    intro out h
    simp only [searchNearby] at h
    split_ifs at h with h1 h2
    · refine ⟨lineIndex - o, by omega, (Option.some.inj h).symm⟩
    · have hbound : lineIndex + o < lines.length := by
        have := (Bool.and_eq_true _ _).mp h2
        simpa using this.1
      exact ⟨lineIndex + o, hbound, (Option.some.inj h).symm⟩
    · exact ih out h

theorem replaceLocatorInLines_structure (env : RegexEnv) (lines : List Str)
    (targetLineNumber : Int) (originalLocator healedLocator : Str) (out : List Str)
    (h : replaceLocatorInLines env lines targetLineNumber originalLocator healedLocator =
      some out) :
    ∃ k, k < lines.length ∧ out = replaceAt env lines k originalLocator healedLocator := by
  simp only [replaceLocatorInLines] at h
  split_ifs at h with hrange htarget
  all_goals
    have hok : ¬ (targetLineNumber - 1 < 0 ∨
        (lines.length : Int) ≤ targetLineNumber - 1) := by
      intro hor
      apply hrange
      rcases hor with h1 | h1
      · simp [h1]
      · simp [h1]
  all_goals
    have h0 : 0 ≤ targetLineNumber - 1 := by omega
  all_goals
    have hli : ((targetLineNumber - 1).toNat : Int) = targetLineNumber - 1 :=
      Int.toNat_of_nonneg h0
  all_goals
    have hlen : (targetLineNumber - 1).toNat < lines.length := by omega
  · exact ⟨(targetLineNumber - 1).toNat, hlen, (Option.some.inj h).symm⟩
  · exact searchNearby_some env lines _ _ _ hlen [1, 2, 3] out h

theorem searchNearby_none (env : RegexEnv) (lines : List Str) (lineIndex : Nat)
    (originalLocator healedLocator : Str) :
    ∀ offs : List Nat,
      (∀ o ∈ offs,
        (o ≤ lineIndex →
          containsLocator (lines.getD (lineIndex - o) []) originalLocator = false)
        ∧ (lineIndex + o < lines.length →
          containsLocator (lines.getD (lineIndex + o) []) originalLocator = false)) →
      searchNearby env lines lineIndex originalLocator healedLocator offs = none := by
  intro offs
  induction offs with
  | nil => intro _; rfl
  | cons o rest ih =>
    intro h
    have ho := h o (List.mem_cons_self o rest)
    simp only [searchNearby]
    rw [if_neg, if_neg]
    · exact ih (fun o2 ho2 => h o2 (List.mem_cons_of_mem o ho2))
    · intro hcond
      have hparts := (Bool.and_eq_true _ _).mp hcond
      have hlt : lineIndex + o < lines.length := by simpa using hparts.1
      rw [ho.2 hlt] at hparts
      cases hparts.2
    · intro hcond
      have hparts := (Bool.and_eq_true _ _).mp hcond
      have hle : o ≤ lineIndex := by simpa using hparts.1
      rw [ho.1 hle] at hparts
      cases hparts.2

/-- C9: when the original locator text occurs neither on the target line
nor anywhere in the ±3-line window, `applyHealingToCode` writes nothing to
the target file — its content is byte-identical to its state before the
call — and returns `success = false` with the explicit locator-not-found
error.  The only write that can happen at all on this path is the
timestamped backup (skipped when `createBackup` is explicitly `false`),
which copies the unchanged original content before the search runs. -/
theorem spec_C9_absent_locator_no_write (env : RegexEnv) (content : Str)
    (options : CodeModificationOptions)
    (habsent : ∀ j : Nat, j < (linesOf content).length →
      options.lineNumber - 1 - 3 ≤ (j : Int) →
      (j : Int) ≤ options.lineNumber - 1 + 3 →
      containsLocator ((linesOf content).getD j []) options.originalLocator = false) :
    (applyHealingToCode env (some content) options).result.success = false
    ∧ (applyHealingToCode env (some content) options).result.error =
        some CodeModError.locatorNotFound
    ∧ (applyHealingToCode env (some content) options).fileContent = some content
    ∧ (applyHealingToCode env (some content) options).backupWritten =
        (if options.createBackup = some false then none else some content) := by
  have hnone : replaceLocatorInLines env (linesOf content) options.lineNumber
      options.originalLocator options.healedLocator = none := by
    simp only [replaceLocatorInLines]
    split_ifs with hrange htarget
    · rfl
    · exfalso
      have hok : ¬ (options.lineNumber - 1 < 0 ∨
          ((linesOf content).length : Int) ≤ options.lineNumber - 1) := by
        intro hor
        apply hrange
        rcases hor with h1 | h1
        · simp [h1]
        · simp [h1]
      have h0 : 0 ≤ options.lineNumber - 1 := by omega
      have hli : (((options.lineNumber - 1).toNat : Nat) : Int) = options.lineNumber - 1 :=
        Int.toNat_of_nonneg h0
      have hlen : (options.lineNumber - 1).toNat < (linesOf content).length := by omega
      rw [habsent (options.lineNumber - 1).toNat hlen (by omega) (by omega)] at htarget
      cases htarget
    · have hok : ¬ (options.lineNumber - 1 < 0 ∨
          ((linesOf content).length : Int) ≤ options.lineNumber - 1) := by
        intro hor
        apply hrange
        rcases hor with h1 | h1
        · simp [h1]
        · simp [h1]
      have h0 : 0 ≤ options.lineNumber - 1 := by omega
      have hli : (((options.lineNumber - 1).toNat : Nat) : Int) = options.lineNumber - 1 :=
        Int.toNat_of_nonneg h0
      apply searchNearby_none
      intro o ho
      have ho3 : o = 1 ∨ o = 2 ∨ o = 3 := by simpa using ho
      constructor
      · intro hle
        have hcast : (((options.lineNumber - 1).toNat - o : Nat) : Int) =
            options.lineNumber - 1 - o := by
          omega
        refine habsent _ (by omega) (by omega) (by omega)
      · intro hlt
        have hcast : (((options.lineNumber - 1).toNat + o : Nat) : Int) =
            options.lineNumber - 1 + o := by
          omega
        refine habsent _ (by omega) (by omega) (by omega)
  refine ⟨?_, ?_, ?_, ?_⟩ <;> simp [applyHealingToCode, hnone]

/-- Witness for C9: requesting a locator absent from a concrete two-line
file. -/
theorem spec_C9_witness :
    (applyHealingToCode regexEnvNone (some contentTwoLines) optionsAbsent).result.success = false
    ∧ (applyHealingToCode regexEnvNone (some contentTwoLines) optionsAbsent).result.error =
        some CodeModError.locatorNotFound
    ∧ (applyHealingToCode regexEnvNone (some contentTwoLines) optionsAbsent).fileContent =
        some contentTwoLines
    ∧ (applyHealingToCode regexEnvNone (some contentTwoLines) optionsAbsent).backupWritten =
        (if optionsAbsent.createBackup = some false then none else some contentTwoLines) :=
  spec_C9_absent_locator_no_write regexEnvNone contentTwoLines optionsAbsent (by decide)

/-- C8 (amended): after a successful `applyHealingToCode` whose healed
locator contains no newline, the file has the same number of lines and
every line other than the single rewritten one is byte-identical to the
original.  As stated the claim also covered healed locators containing
newline characters; those splice extra lines into the file (see the
counterexample), because the replacement happens inside one element of the
`split('\n')` array before `join('\n')`. -/
theorem spec_C8_amended_untouched_lines (env : RegexEnv) (content : Str)
    (options : CodeModificationOptions)
    (hsuccess : (applyHealingToCode env (some content) options).result.success = true)
    (hnl : '\n' ∉ options.healedLocator) :
    ∃ k,
      (linesOf ((applyHealingToCode env (some content) options).fileContent.getD [])).length
        = (linesOf content).length
      ∧ ∀ i, i < (linesOf content).length → i ≠ k →
          (linesOf ((applyHealingToCode env (some content) options).fileContent.getD [])).getD
            i [] = (linesOf content).getD i [] := by
  cases hrep : replaceLocatorInLines env (linesOf content) options.lineNumber
      options.originalLocator options.healedLocator with
  | none =>
    exfalso
    simp only [applyHealingToCode, hrep] at hsuccess
    cases hsuccess
  | some out =>
    obtain ⟨k, hk, hout⟩ := replaceLocatorInLines_structure env _ _ _ _ out hrep
    subst hout
    have hlines : ∀ l ∈ linesOf content, '\n' ∉ l :=
      not_mem_of_mem_splitOnChar '\n' content
    have hnew : ∀ l ∈ replaceAt env (linesOf content) k options.originalLocator
        options.healedLocator, '\n' ∉ l := by
      intro l hl
      rcases List.mem_or_eq_of_mem_set hl with h | rfl
      · exact hlines l h
      · intro hmem
        rcases mem_replaceLocatorInLine env _ _ _ '\n' hmem with h | h | h
        · refine hlines _ ?_ h
          rw [List.getD_eq_getElem _ _ hk]
          exact List.getElem_mem hk
        · exact hnl h
        · simp [quoteStyles] at h
    have hne : replaceAt env (linesOf content) k options.originalLocator
        options.healedLocator ≠ [] := by
      intro h
      have hlen0 := congrArg List.length h
      simp only [replaceAt, List.length_set, List.length_nil] at hlen0
      exact splitOnChar_ne_nil '\n' content (List.length_eq_zero.mp hlen0)
    have hsplit : linesOf (joinLines (replaceAt env (linesOf content) k
        options.originalLocator options.healedLocator)) =
        replaceAt env (linesOf content) k options.originalLocator options.healedLocator :=
      splitOnChar_joinWithChar '\n' _ hne hnew
    have hfile : (applyHealingToCode env (some content) options).fileContent =
        some (joinLines (replaceAt env (linesOf content) k options.originalLocator
          options.healedLocator)) := by
      simp [applyHealingToCode, hrep]
    refine ⟨k, ?_, ?_⟩
    · rw [hfile, Option.getD_some, hsplit]
      simp [replaceAt, List.length_set]
    · intro i hi hik
      rw [hfile, Option.getD_some, hsplit]
      simp only [replaceAt]
      rw [List.getD_eq_getElem _ _ (by rw [List.length_set]; exact hi),
        List.getD_eq_getElem _ _ hi]
      exact List.getElem_set_ne (Ne.symm hik) _

/-- Witness for C8 (amended): a successful concrete modification with a
newline-free healed locator. -/
theorem spec_C8_witness :
    ∃ k,
      (linesOf ((applyHealingToCode regexEnvNone (some contentABFooB)
        optionsQux).fileContent.getD [])).length = (linesOf contentABFooB).length
      ∧ ∀ i, i < (linesOf contentABFooB).length → i ≠ k →
          (linesOf ((applyHealingToCode regexEnvNone (some contentABFooB)
            optionsQux).fileContent.getD [])).getD i [] = (linesOf contentABFooB).getD i [] :=
  spec_C8_amended_untouched_lines regexEnvNone contentABFooB optionsQux (by decide) (by decide)

/-- Counterexample for C8 as stated: a successful call whose healed
locator contains a newline changes the file's line count (3 lines become
4). -/
theorem spec_C8_counterexample :
    (applyHealingToCode regexEnvNone (some contentABFooB)
      optionsNewlineHealed).result.success = true
    ∧ (linesOf ((applyHealingToCode regexEnvNone (some contentABFooB)
        optionsNewlineHealed).fileContent.getD [])).length ≠ (linesOf contentABFooB).length := by
  decide

end SelfHealing
